import Mathlib

/-!
# Model loading in `RtNeuralGeneric::loadModelFromIndex`

A shallow embedding of `src/model-from-index.cpp`.

* C++ control flow that may throw or run into undefined behaviour is embedded
  in the result type `Exec`.
* `nlohmann::json` values are embedded as the inductive type `Json`; the
  handful of member functions the loader calls (`operator[]`, `back`,
  `is_number`, `get<int>`, `get<float>`) are embedded as functions on it.
* Everything declared in headers that are not part of the translation unit
  (`MAX_INPUT_SIZE`, `DB_CO`, `custom_model_creator`, the architecture
  variant, `applyModel`, the embedded catalogue bytes and the JSON text
  reader) is collected in the record `Env` and every theorem quantifies over
  it.
* `float` is an abstract carrier `F`; the only operations on it are the
  conversion `toFloat` and `DB_CO`, so no floating point arithmetic is
  modelled.
-/

namespace RtNeuralGeneric

/-! ## Outcomes of C++ code -/

/-- Outcome of a C++ fragment: a value, an exception derived from
`std::exception` carrying its `what()` text, or undefined behaviour. -/
inductive Exec (α : Type) where
  | ok (a : α)
  | throw (what : String)
  | undefined
  deriving DecidableEq

/-- Sequencing: exceptions and undefined behaviour propagate. -/
def Exec.bind {α β : Type} (x : Exec α) (f : α → Exec β) : Exec β :=
  match x with
  | .ok a => f a
  | .throw w => .throw w
  | .undefined => .undefined

instance : Monad Exec where
  pure := Exec.ok
  bind := Exec.bind

/-! ## Machine integers -/

/-- Smallest value of a 32 bit `int`. -/
def INT_MIN : Int := -2147483648

/-- Largest value of a 32 bit `int`. -/
def INT_MAX : Int := 2147483647

/-- Conversion `static_cast<int>` of a 64 bit integer: the value modulo `2^32`,
read as two's complement. -/
def wrapInt (n : Int) : Int := (n + 2147483648) % 4294967296 - 2147483648

/-- Conversion of an `int` to `size_t` (64 bit), as done by the usual arithmetic
conversions in `modelIndex > sizeof(kModels)/sizeof(kModels[0])`. -/
def toSizeT (n : Int) : Nat := (n % 18446744073709551616).toNat

/-- Conversion `static_cast<int>` of a finite `double`: truncation toward zero;
undefined when the truncated value is not representable. -/
def truncToInt (x : Rat) : Exec Int :=
  let t := Int.tdiv x.num (x.den : Int)
  if INT_MIN ≤ t ∧ t ≤ INT_MAX then .ok t else .undefined

/-! ## JSON values (`nlohmann::json`) -/

/-- A JSON value as stored by `nlohmann::json`. Integers are kept in the two
64 bit integer alternatives, `number_float` holds a finite `double` (a
rational). Objects are `std::map`s: an association list read through
`objFind`, whose order of storage is irrelevant. -/
inductive Json where
  | null
  | boolean (b : Bool)
  | number_integer (n : Int)
  | number_unsigned (n : Nat)
  | number_float (x : Rat)
  | string (s : String)
  | array (elems : List Json)
  | object (members : List (String × Json))

/-- Member lookup in an object. -/
def objFind (key : String) : List (String × Json) → Option Json
  | [] => none
  | (k, v) :: rest => if k = key then some v else objFind key rest

/-- Member assignment in an object (insert or overwrite). -/
def objSet (key : String) (v : Json) : List (String × Json) → List (String × Json)
  | [] => [(key, v)]
  | (k, w) :: rest => if k = key then (key, v) :: rest else (k, w) :: objSet key v rest

/-- The member with the greatest key, the last one in `std::map` order. -/
def objLast : List (String × Json) → Option (String × Json)
  | [] => none
  | (k, v) :: rest =>
    match objLast rest with
    | none => some (k, v)
    | some (k', v') => if k < k' then some (k', v') else some (k, v)

/-- The call `j.is_number()`. -/
def Json.is_number : Json → Bool
  | .number_integer _ => true
  | .number_unsigned _ => true
  | .number_float _ => true
  | _ => false

/-- The non-const `j[key]` with a string key. A null value silently becomes an
object, a missing member is inserted as null, any other kind of value throws
`type_error.305`. Returns the element referred to and the container after the
access. -/
def Json.index (j : Json) (key : String) : Exec (Json × Json) :=
  match j with
  | .null => .ok (.null, .object [(key, .null)])
  | .object kvs =>
    match objFind key kvs with
    | some v => .ok (v, .object kvs)
    | none => .ok (.null, .object (objSet key .null kvs))
  | _ => .throw "[json.exception.type_error.305] cannot use operator[] with a string argument"

/-- Write through a reference obtained by `j[key]`: store `v` under `key`. -/
def Json.assign (j : Json) (key : String) (v : Json) : Json :=
  match j with
  | .object kvs => .object (objSet key v kvs)
  | other => other

/-- The call `j.back()`: last element of an array, last member of an object,
the value itself for a scalar; throws `invalid_iterator.214` on null and is
undefined on an empty container. -/
def Json.back : Json → Exec Json
  | .null => .throw "[json.exception.invalid_iterator.214] cannot get value"
  | .array elems =>
    match elems.getLast? with
    | some v => .ok v
    | none => .undefined
  | .object kvs =>
    match objLast kvs with
    | some (_, v) => .ok v
    | none => .undefined
  | other => .ok other

/-- The call `j.get<int>()`: numbers and booleans are converted with
`static_cast<int>`, everything else throws `type_error.302`. -/
def Json.getInt : Json → Exec Int
  | .number_integer n => .ok (wrapInt n)
  | .number_unsigned n => .ok (wrapInt (n : Int))
  | .number_float x => truncToInt x
  | .boolean b => .ok (if b then 1 else 0)
  | _ => .throw "[json.exception.type_error.302] type must be number"

/-- The call `j.get<float>()`, given the conversion `toFloat` of an exact
value to `float`. -/
def Json.getFloat {F : Type} (toFloat : Rat → F) : Json → Exec F
  | .number_integer n => .ok (toFloat (n : Rat))
  | .number_unsigned n => .ok (toFloat (n : Rat))
  | .number_float x => .ok (toFloat x)
  | .boolean b => .ok (toFloat (if b then 1 else 0))
  | _ => .throw "[json.exception.type_error.302] type must be number"

/-- The member `key` of a JSON value as stored in the descriptor, if the value
is an object that has one. -/
def Json.member (j : Json) (key : String) : Option Json :=
  match j with
  | .object kvs => objFind key kvs
  | _ => none

/-- The exact value of a JSON number. -/
def Json.numValue : Json → Option Rat
  | .number_integer n => some (n : Rat)
  | .number_unsigned n => some (n : Rat)
  | .number_float x => some x
  | _ => none

/-! ## The runtime model -/

/-- Modelled from the spec: the class `LinearValueSmoother`, which is declared
in a header outside the translation unit. Each smoother has a sample rate, a
time constant, a target value and a current value; `setTargetValue` assigns the
target and `clearToTargetValue` assigns the target to the current value. -/
structure LinearValueSmoother (F : Type) where
  sampleRate : F
  timeConstant : F
  target : F
  value : F
  deriving DecidableEq

/-- Modelled from the spec: the call `s.setSampleRate(x)` binds the smoother to
the sample rate `x`. -/
def LinearValueSmoother.setSampleRate {F : Type} (s : LinearValueSmoother F) (x : F) :
    LinearValueSmoother F :=
  { s with sampleRate := x }

/-- Modelled from the spec: the call `s.setTimeConstant(x)` sets the time
constant. -/
def LinearValueSmoother.setTimeConstant {F : Type} (s : LinearValueSmoother F) (x : F) :
    LinearValueSmoother F :=
  { s with timeConstant := x }

/-- Modelled from the spec: the call `s.setTargetValue(x)` assigns the target. -/
def LinearValueSmoother.setTargetValue {F : Type} (s : LinearValueSmoother F) (x : F) :
    LinearValueSmoother F :=
  { s with target := x }

/-- Modelled from the spec: the call `s.clearToTargetValue()` forces the current
value to the target. -/
def LinearValueSmoother.clearToTargetValue {F : Type} (s : LinearValueSmoother F) :
    LinearValueSmoother F :=
  { s with value := s.target }

/-- The struct `DynamicModel`: the architecture variant `V` plus the scalar
metadata and the two parameter smoothers written by the loader. -/
structure DynamicModel (F V : Type) where
  variant : V
  input_skip : Bool
  input_gain : F
  output_gain : F
  samplerate : F
  param1Coeff : LinearValueSmoother F
  param2Coeff : LinearValueSmoother F
  deriving DecidableEq

/-- One entry of the table `kModels`: a byte buffer and its size. -/
structure CatalogEntry where
  data : List Nat
  size : Nat
  deriving DecidableEq

/-- A message handed to the LV2 logger. -/
inductive LogEntry where
  | note (msg : String)
  | error (msg : String)
  deriving DecidableEq

/-- Everything the loader takes from outside its translation unit.

* `kModels`: the table of 20 embedded buffers (the `static_assert` fixes the
  length);
* `readJson`: `jsonStream >> model_json` on the bytes of the stream;
* `MAX_INPUT_SIZE`, `DB_CO`: macros of `rt-neural-generic.h`;
* `toFloat`: conversion of an exact value to `float` (used for `get<float>`
  and for the literals `1.0f`, `48000.0f`, `0.1f`, `0.f`);
* `newModel`: the value-initialised `DynamicModel` of `std::make_unique`;
* `isNullModel`: whether the active alternative of the variant is `NullModel`;
* `custom_model_creator`, `parseJson`, `reset`: the architecture code;
* `applyModel`: the real-time inference routine; it returns normally, and
  yields the model and the buffer after the call. -/
structure Env (F V : Type) where
  kModels : Fin 20 → CatalogEntry
  readJson : List Nat → Exec Json
  MAX_INPUT_SIZE : Int
  toFloat : Rat → F
  DB_CO : F → F
  newModel : DynamicModel F V
  isNullModel : V → Bool
  custom_model_creator : Json → V → Exec (Bool × V)
  parseJson : V → Json → Bool → Exec V
  reset : V → Exec V
  applyModel : DynamicModel F V → List F → Nat → DynamicModel F V × List F

/-- The locals of the loader that survive the first `try` block. -/
structure Descriptor (F : Type) where
  model_json : Json
  input_size : Int
  input_skip : Int
  input_gain : F
  output_gain : F
  model_samplerate : F

/-- What a call of the loader leaves behind: the returned pointer (`none` is
`nullptr`), the logger contents and the value of `*input_size_ptr`. -/
structure LoadResult (F V : Type) where
  ret : Option (DynamicModel F V)
  log : List LogEntry
  input_size : Int
  deriving DecidableEq

/-! ## The loader -/

/-- Lines 58-61: `input_size` from the last element of `in_shape`, rejected
when above `MAX_INPUT_SIZE`. Returns the value and `model_json` after the
access. -/
def readInputSize (maxInputSize : Int) (model_json : Json) : Exec (Int × Json) := do
  let (in_shape, model_json) ← model_json.index "in_shape"
  let last ← in_shape.back
  let input_size ← last.getInt
  if input_size > maxInputSize then
    Exec.throw "Value for input_size not supported"
  else
    pure (input_size, model_json)

/-- Lines 63-70: `input_skip` from `in_skip`, rejected when above 1, and 0
when `in_skip` is not a number. (The second `model_json["in_skip"]` of the
source refers to the same element as the first.) -/
def readInSkip (model_json : Json) : Exec (Int × Json) := do
  let (in_skip, model_json) ← model_json.index "in_skip"
  if in_skip.is_number then
    let input_skip ← in_skip.getInt
    if input_skip > 1 then
      Exec.throw "Values for in_skip > 1 are not supported"
    else
      pure (input_skip, model_json)
  else
    pure (0, model_json)

/-- Lines 72-77 and 79-84: a gain from the member `key`, `DB_CO` of its value
when it is a number and `1.0f` otherwise. -/
def readGain {F V : Type} (env : Env F V) (key : String) (model_json : Json) :
    Exec (F × Json) := do
  let (g, model_json) ← model_json.index key
  if g.is_number then
    let x ← g.getFloat env.toFloat
    pure (env.DB_CO x, model_json)
  else
    pure (env.toFloat 1, model_json)

/-- Lines 86-94: the sample rate from `metadata.samplerate`, else from
`samplerate`, else `48000.0f`. -/
def readSamplerate {F V : Type} (env : Env F V) (model_json : Json) : Exec (F × Json) := do
  let (metadata, model_json) ← model_json.index "metadata"
  let (sr, metadata) ← metadata.index "samplerate"
  let model_json := model_json.assign "metadata" metadata
  if sr.is_number then
    let x ← sr.getFloat env.toFloat
    pure (x, model_json)
  else
    let (sr, model_json) ← model_json.index "samplerate"
    if sr.is_number then
      let x ← sr.getFloat env.toFloat
      pure (x, model_json)
    else
      pure (env.toFloat 48000, model_json)

/-- Lines 58-94: the field validation of the first `try` block. -/
def parseDescriptor {F V : Type} (env : Env F V) (model_json : Json) : Exec (Descriptor F) := do
  let (input_size, model_json) ← readInputSize env.MAX_INPUT_SIZE model_json
  let (input_skip, model_json) ← readInSkip model_json
  let (input_gain, model_json) ← readGain env "in_gain" model_json
  let (output_gain, model_json) ← readGain env "out_gain" model_json
  let (model_samplerate, model_json) ← readSamplerate env model_json
  pure ⟨model_json, input_size, input_skip, input_gain, output_gain, model_samplerate⟩

/-- Lines 54-55: the JSON value read from entry `i` of the table, a stream over
the first `size` bytes of `data`. -/
def catalogJson {F V : Type} (env : Env F V) (i : Fin 20) : Exec Json :=
  env.readJson ((env.kModels i).data.take (env.kModels i).size)

/-- Lines 54-94: the first `try` block without its logging: read the JSON text
of entry `i` of the table and validate its fields. -/
def descriptorStage {F V : Type} (env : Env F V) (i : Fin 20) : Exec (Descriptor F) := do
  let model_json ← catalogJson env i
  parseDescriptor env model_json

/-- Lines 109-119: `std::visit` over the variant; every alternative but
`NullModel` gets `parseJson(model_json, true)` followed by `reset()`. -/
def visitParseReset {F V : Type} (env : Env F V) (model_json : Json) (variant : V) : Exec V :=
  if env.isNullModel variant then
    pure variant
  else do
    let variant ← env.parseJson variant model_json true
    env.reset variant

/-- Lines 106-119: the second `try` block without its logging. -/
def architectureStage {F V : Type} (env : Env F V) (model_json : Json) (variant : V) :
    Exec V := do
  let (known, variant) ← env.custom_model_creator model_json variant
  if known then
    visitParseReset env model_json variant
  else
    Exec.throw "Unable to identify a known model architecture!"

/-- Lines 127-138: the scalar metadata and both smoothers. -/
def saveExtraInfo {F V : Type} (env : Env F V) (model : DynamicModel F V) (d : Descriptor F) :
    DynamicModel F V :=
  let model := { model with input_skip := decide (d.input_skip ≠ 0) }
  let model := { model with input_gain := d.input_gain }
  let model := { model with output_gain := d.output_gain }
  let model := { model with samplerate := d.model_samplerate }
  let model := { model with param1Coeff := model.param1Coeff.setSampleRate d.model_samplerate }
  let model := { model with param1Coeff := model.param1Coeff.setTimeConstant (env.toFloat (1 / 10)) }
  let model := { model with param1Coeff := model.param1Coeff.setTargetValue (env.toFloat 0) }
  let model := { model with param1Coeff := model.param1Coeff.clearToTargetValue }
  let model := { model with param2Coeff := model.param2Coeff.setSampleRate d.model_samplerate }
  let model := { model with param2Coeff := model.param2Coeff.setTimeConstant (env.toFloat (1 / 10)) }
  let model := { model with param2Coeff := model.param2Coeff.setTargetValue (env.toFloat 0) }
  let model := { model with param2Coeff := model.param2Coeff.clearToTargetValue }
  model

/-- Lines 142-145: the pre-buffering pass. The buffer `out` of 2048 zeros is
local to the block; only the model survives. -/
def preBuffer {F V : Type} (env : Env F V) (model : DynamicModel F V) : DynamicModel F V :=
  (env.applyModel model (List.replicate 2048 (env.toFloat 0)) 2048).1

/-- The slot of `kModels` designated by a C index, when there is one. -/
def kModelsSlot (idx : Int) : Option (Fin 20) :=
  if h : 0 ≤ idx ∧ idx < 20 then some ⟨idx.toNat, by omega⟩ else none

/-- Text of the error logged by the first `catch`. -/
def jsonErrorText (what : String) : String :=
  "Unable to load json file, error: " ++ what ++ "\n"

/-- Text of the error logged by the second `catch`. -/
def modelErrorText (what : String) : String :=
  "Error loading model: " ++ what ++ "\n"

/-- Text of the note logged at the end of the first `try` block. -/
def jsonNoteText : String := "Successfully loaded json file\n"

/-- Lines 46-150: the body of the loader once the index guard has let slot `i`
of the table through. -/
def loadFromSlot {F V : Type} (env : Env F V) (logger : List LogEntry) (i : Fin 20)
    (input_size_cell : Int) : Exec (LoadResult F V) :=
  match descriptorStage env i with
  | .undefined => .undefined
  | .throw what => .ok ⟨none, logger ++ [.error (jsonErrorText what)], input_size_cell⟩
  | .ok d =>
    let logger := logger ++ [.note jsonNoteText]
    let model := env.newModel
    match architectureStage env d.model_json model.variant with
    | .undefined => .undefined
    | .throw what => .ok ⟨none, logger ++ [.error (modelErrorText what)], input_size_cell⟩
    | .ok variant =>
      let model := { model with variant := variant }
      let model := saveExtraInfo env model d
      let model := preBuffer env model
      .ok ⟨some model, logger, d.input_size⟩

/-- The function `RtNeuralGeneric::loadModelFromIndex`. `logger` is what the
logger holds before the call and `input_size_cell` the value of
`*input_size_ptr` before the call. Reading `kModels` outside its bounds is
undefined behaviour. -/
def loadModelFromIndex {F V : Type} (env : Env F V) (logger : List LogEntry)
    (modelIndex : Int) (input_size_cell : Int) : Exec (LoadResult F V) :=
  if modelIndex = 0 ∨ toSizeT modelIndex > 20 then
    .ok ⟨none, logger, input_size_cell⟩
  else
    match kModelsSlot (modelIndex - 1) with
    | none => .undefined
    | some i => loadFromSlot env logger i input_size_cell

/-- The pre-buffering pass leaves the scalar metadata of the model as the
loader wrote it. -/
def WarmupKeepsScalars {F V : Type} (env : Env F V) : Prop :=
  ∀ (m : DynamicModel F V) (buf : List F) (n : Nat),
    (env.applyModel m buf n).1.input_skip = m.input_skip ∧
    (env.applyModel m buf n).1.input_gain = m.input_gain ∧
    (env.applyModel m buf n).1.output_gain = m.output_gain ∧
    (env.applyModel m buf n).1.samplerate = m.samplerate

/-- The pre-buffering pass leaves both smoothers as the loader set them. -/
def WarmupKeepsSmoothers {F V : Type} (env : Env F V) : Prop :=
  ∀ (m : DynamicModel F V) (buf : List F) (n : Nat),
    (env.applyModel m buf n).1.param1Coeff = m.param1Coeff ∧
    (env.applyModel m buf n).1.param2Coeff = m.param2Coeff

/-- A match by `custom_model_creator` selects an architecture, never
`NullModel`. -/
def CreatorSelectsArchitecture {F V : Type} (env : Env F V) : Prop :=
  ∀ (j : Json) (v v' : V), env.custom_model_creator j v = .ok (true, v') →
    env.isNullModel v' = false

/-! ## The resolution rules as the specification words them -/

/-- The numeric value of `metadata.samplerate`, when the descriptor has a
`metadata` member with a numeric `samplerate` member. -/
def metadataSamplerate (j : Json) : Option Rat :=
  ((j.member "metadata").bind fun md => md.member "samplerate").bind Json.numValue

/-- The numeric value of the top-level `samplerate`, when it is a number. -/
def topSamplerate (j : Json) : Option Rat :=
  (j.member "samplerate").bind Json.numValue

/-- Sample rate resolution in the order of the specification: the
metadata-scoped field if numeric, else the top-level field if numeric, else
48000. -/
def specSamplerate {F : Type} (toFloat : Rat → F) (j : Json) : F :=
  match metadataSamplerate j with
  | some q => toFloat q
  | none =>
    match topSamplerate j with
    | some q => toFloat q
    | none => toFloat 48000

/-- A descriptor lacks both sample rate fields: no top-level `samplerate`, and
`metadata` is absent, null, or an object without `samplerate`. -/
def LacksSamplerate (j : Json) : Prop :=
  j.member "samplerate" = none ∧
    (j.member "metadata" = none ∨ j.member "metadata" = some Json.null ∨
      ∃ mkvs, j.member "metadata" = some (Json.object mkvs) ∧ objFind "samplerate" mkvs = none)

/-! ## A concrete environment and descriptors for examples -/

/-- Symbolic `float` values: the conversion of an exact value, or `DB_CO` of
a value. -/
inductive SymFloat where
  | lit (q : Rat)
  | dbco (x : SymFloat)
  deriving DecidableEq

/-- An environment with symbolic `float`s, a table whose entries all read as
the descriptor `j`, `MAX_INPUT_SIZE = 3`, and an architecture code that
recognises descriptors with an array `layers` and counts the calls made on the
variant (`parseJson` and `reset` add 1, `applyModel` adds 100). -/
def exampleEnv (j : Json) : Env SymFloat Nat where
  kModels := fun _ => ⟨[], 0⟩
  readJson := fun _ => .ok j
  MAX_INPUT_SIZE := 3
  toFloat := SymFloat.lit
  DB_CO := SymFloat.dbco
  newModel := ⟨0, false, .lit 0, .lit 0, .lit 0, ⟨.lit 0, .lit 0, .lit 0, .lit 0⟩,
    ⟨.lit 0, .lit 0, .lit 0, .lit 0⟩⟩
  isNullModel := fun v => v == 0
  custom_model_creator := fun model_json _ =>
    match model_json.member "layers" with
    | some (.array _) => .ok (true, 1)
    | _ => .ok (false, 0)
  parseJson := fun v _ _ => .ok (v + 1)
  reset := fun v => .ok (v + 1)
  applyModel := fun m buf _ => ({ m with variant := m.variant + 100 }, buf)

/-- The descriptor with `in_shape = [1]`, an array `layers` and nothing else. -/
def plainJson : Json :=
  .object [("in_shape", .array [.number_unsigned 1]), ("layers", .array [])]

/-- The descriptor with `in_shape = [1]` and no `layers`. -/
def noLayersJson : Json :=
  .object [("in_shape", .array [.number_unsigned 1])]

/-- The descriptor with `in_shape = [4294967297]`. -/
def wideShapeJson : Json :=
  .object [("in_shape", .array [.number_unsigned 4294967297]), ("layers", .array [])]

/-- The descriptor with `in_shape = [5]`. -/
def bigShapeJson : Json :=
  .object [("in_shape", .array [.number_unsigned 5]), ("layers", .array [])]

/-- The rational 3/2. -/
def threeHalves : Rat := ⟨3, 2, by decide, by decide⟩

/-- The descriptor with `in_shape = [1]` and `in_skip = 1.5`. -/
def halfSkipJson : Json :=
  .object [("in_shape", .array [.number_unsigned 1]), ("in_skip", .number_float threeHalves),
    ("layers", .array [])]

/-- The descriptor with `in_shape = [1]` and `in_skip = 2`. -/
def twoSkipJson : Json :=
  .object [("in_shape", .array [.number_unsigned 1]), ("in_skip", .number_unsigned 2),
    ("layers", .array [])]

/-- The descriptor with `in_shape = [1]` and `in_skip = -1`. -/
def negSkipJson : Json :=
  .object [("in_shape", .array [.number_unsigned 1]), ("in_skip", .number_integer (-1)),
    ("layers", .array [])]

/-- The descriptor with gains of 6 dB and -3 dB and both sample rate fields. -/
def fullJson : Json :=
  .object [("in_shape", .array [.number_unsigned 1]), ("in_skip", .number_unsigned 1),
    ("in_gain", .number_integer 6), ("out_gain", .number_integer (-3)),
    ("metadata", .object [("samplerate", .number_unsigned 44100)]),
    ("samplerate", .number_unsigned 96000), ("layers", .array [])]

/-- The smoother the loader configures for the sample rate `sr`. -/
def exampleSmoother (sr : Rat) : LinearValueSmoother SymFloat :=
  ⟨.lit sr, .lit (1 / 10), .lit 0, .lit 0⟩

/-- The model the example environment returns for `plainJson`. -/
def plainModel : DynamicModel SymFloat Nat :=
  ⟨103, false, .lit 1, .lit 1, .lit 48000, exampleSmoother 48000, exampleSmoother 48000⟩

/-- The model the example environment returns for `fullJson`. -/
def fullModel : DynamicModel SymFloat Nat :=
  ⟨103, true, .dbco (.lit ((6 : Int) : Rat)), .dbco (.lit ((-3 : Int) : Rat)),
    .lit ((44100 : Nat) : Rat), exampleSmoother ((44100 : Nat) : Rat),
    exampleSmoother ((44100 : Nat) : Rat)⟩

/-- The locals the field validation leaves for `plainJson`. -/
def plainDescriptor : Descriptor SymFloat :=
  ⟨.object [("in_shape", .array [.number_unsigned 1]), ("layers", .array []),
      ("in_skip", .null), ("in_gain", .null), ("out_gain", .null),
      ("metadata", .object [("samplerate", .null)]), ("samplerate", .null)],
    1, 0, .lit 1, .lit 1, .lit 48000⟩

/-! ## Sequencing lemmas -/

@[simp] theorem Exec.bind_eq {α β : Type} (x : Exec α) (f : α → Exec β) :
    (x >>= f) = Exec.bind x f := rfl

@[simp] theorem Exec.pure_eq {α : Type} (a : α) : (pure a : Exec α) = Exec.ok a := rfl

@[simp] theorem Exec.bind_ok {α β : Type} (a : α) (f : α → Exec β) :
    Exec.bind (Exec.ok a) f = f a := rfl

@[simp] theorem Exec.bind_throw {α β : Type} (w : String) (f : α → Exec β) :
    Exec.bind (Exec.throw w) f = Exec.throw w := rfl

@[simp] theorem Exec.bind_undefined {α β : Type} (f : α → Exec β) :
    Exec.bind (Exec.undefined : Exec α) f = Exec.undefined := rfl

theorem Exec.bind_eq_ok {α β : Type} {x : Exec α} {f : α → Exec β} {b : β}
    (h : Exec.bind x f = Exec.ok b) : ∃ a, x = Exec.ok a ∧ f a = Exec.ok b := by
  cases x with
  | ok a => exact ⟨a, rfl, h⟩
  | throw w => simp at h
  | undefined => simp at h

/-! ## The index guard -/

theorem guard_iff (modelIndex : Int) (hint : INT_MIN ≤ modelIndex ∧ modelIndex ≤ INT_MAX) :
    (modelIndex = 0 ∨ toSizeT modelIndex > 20) ↔ ¬ (1 ≤ modelIndex ∧ modelIndex ≤ 20) := by
  unfold INT_MIN INT_MAX at hint
  unfold toSizeT
  omega

theorem kModelsSlot_succ (i : Fin 20) : kModelsSlot ((i.val : Int) + 1 - 1) = some i := by
  unfold kModelsSlot
  have h : 0 ≤ (i.val : Int) + 1 - 1 ∧ (i.val : Int) + 1 - 1 < 20 := by omega
  rw [dif_pos h]
  congr 1
  apply Fin.ext
  simp

theorem loadModelFromIndex_slot {F V : Type} (env : Env F V) (logger : List LogEntry)
    (i : Fin 20) (cell : Int) :
    loadModelFromIndex env logger ((i.val : Int) + 1) cell = loadFromSlot env logger i cell := by
  have hg : ¬ (((i.val : Int) + 1) = 0 ∨ toSizeT ((i.val : Int) + 1) > 20) := by
    unfold toSizeT
    omega
  unfold loadModelFromIndex
  rw [if_neg hg, kModelsSlot_succ]

/-! ## JSON access lemmas -/

theorem objFind_objSet_self (key : String) (v : Json) (kvs : List (String × Json)) :
    objFind key (objSet key v kvs) = some v := by
  induction kvs with
  | nil => simp [objSet, objFind]
  | cons p rest ih =>
    obtain ⟨k, w⟩ := p
    by_cases hk : k = key
    · simp [objSet, objFind, hk]
    · simp [objSet, objFind, hk, ih]

theorem objFind_objSet_ne (key k : String) (v : Json) (kvs : List (String × Json))
    (h : k ≠ key) : objFind k (objSet key v kvs) = objFind k kvs := by
  induction kvs with
  | nil => simp [objSet, objFind, Ne.symm h]
  | cons p rest ih =>
    obtain ⟨k', w⟩ := p
    by_cases hk : k' = key
    · subst hk
      simp [objSet, objFind, Ne.symm h]
    · by_cases hk2 : k' = k
      · subst hk2
        simp [objSet, objFind, hk]
      · simp [objSet, objFind, hk, hk2, ih]

theorem index_ok {j : Json} {key : String} {v j' : Json}
    (h : j.index key = Exec.ok (v, j')) :
    v = (j.member key).getD Json.null ∧ j'.member key = some v ∧
      ∀ k, k ≠ key → j'.member k = j.member k := by
  cases j with
  | null =>
    simp only [Json.index, Exec.ok.injEq, Prod.mk.injEq] at h
    obtain ⟨rfl, rfl⟩ := h
    refine ⟨rfl, by simp [Json.member, objFind], ?_⟩
    intro k hk
    simp [Json.member, objFind, Ne.symm hk]
  | object kvs =>
    unfold Json.index at h
    cases hf : objFind key kvs with
    | some w =>
      simp only [hf, Exec.ok.injEq, Prod.mk.injEq] at h
      obtain ⟨rfl, rfl⟩ := h
      exact ⟨by simp [Json.member, hf], by simp [Json.member, hf], fun _ _ => rfl⟩
    | none =>
      simp only [hf, Exec.ok.injEq, Prod.mk.injEq] at h
      obtain ⟨rfl, rfl⟩ := h
      refine ⟨by simp [Json.member, hf], by simp [Json.member, objFind_objSet_self], ?_⟩
      intro k hk
      simp [Json.member, objFind_objSet_ne key k _ kvs hk]
  | boolean b => simp [Json.index] at h
  | number_integer n => simp [Json.index] at h
  | number_unsigned n => simp [Json.index] at h
  | number_float x => simp [Json.index] at h
  | string s => simp [Json.index] at h
  | array xs => simp [Json.index] at h

theorem index_object_found {key : String} {kvs : List (String × Json)} {v : Json}
    (h : objFind key kvs = some v) :
    (Json.object kvs).index key = Exec.ok (v, Json.object kvs) := by
  simp [Json.index, h]

theorem index_object_missing {key : String} {kvs : List (String × Json)}
    (h : objFind key kvs = none) :
    (Json.object kvs).index key = Exec.ok (Json.null, Json.object (objSet key Json.null kvs)) := by
  simp [Json.index, h]

theorem getFloat_number {F : Type} (toFloat : Rat → F) {v : Json} (h : v.is_number = true) :
    ∃ q, v.numValue = some q ∧ v.getFloat toFloat = Exec.ok (toFloat q) := by
  cases v <;> simp [Json.is_number] at h <;> simp [Json.numValue, Json.getFloat]

/-! ## Inversion of the parsing steps -/

theorem readInputSize_ok {M : Int} {j : Json} {n : Int} {j' : Json}
    (h : readInputSize M j = Exec.ok (n, j')) :
    ∃ shape last, j.index "in_shape" = Exec.ok (shape, j') ∧ shape.back = Exec.ok last ∧
      last.getInt = Exec.ok n ∧ n ≤ M := by
  unfold readInputSize at h
  simp only [Exec.bind_eq] at h
  obtain ⟨⟨shape, j1⟩, h1, h⟩ := Exec.bind_eq_ok h
  obtain ⟨last, h2, h⟩ := Exec.bind_eq_ok h
  obtain ⟨m, h3, h⟩ := Exec.bind_eq_ok h
  by_cases hm : m > M
  · simp [hm] at h
  · simp only [hm, if_false, Exec.pure_eq, Exec.ok.injEq, Prod.mk.injEq] at h
    obtain ⟨rfl, rfl⟩ := h
    exact ⟨shape, last, h1, h2, h3, by omega⟩

theorem readInSkip_ok {j : Json} {k : Int} {j' : Json}
    (h : readInSkip j = Exec.ok (k, j')) :
    ∃ v, j.index "in_skip" = Exec.ok (v, j') ∧
      ((v.is_number = true ∧ v.getInt = Exec.ok k ∧ k ≤ 1) ∨ (v.is_number = false ∧ k = 0)) := by
  unfold readInSkip at h
  simp only [Exec.bind_eq] at h
  obtain ⟨⟨v, j1⟩, h1, h⟩ := Exec.bind_eq_ok h
  cases hn : v.is_number with
  | true =>
    simp only [hn, if_true] at h
    obtain ⟨m, h2, h⟩ := Exec.bind_eq_ok h
    by_cases hm : m > 1
    · simp [hm] at h
    · simp only [hm, if_false, Exec.pure_eq, Exec.ok.injEq, Prod.mk.injEq] at h
      obtain ⟨rfl, rfl⟩ := h
      exact ⟨v, h1, Or.inl ⟨hn, h2, by omega⟩⟩
  | false =>
    simp only [hn, Bool.false_eq_true, if_false, Exec.pure_eq, Exec.ok.injEq, Prod.mk.injEq] at h
    obtain ⟨rfl, rfl⟩ := h
    exact ⟨v, h1, Or.inr ⟨hn, rfl⟩⟩

theorem readGain_ok {F V : Type} {env : Env F V} {key : String} {j : Json} {g : F} {j' : Json}
    (h : readGain env key j = Exec.ok (g, j')) :
    ∃ v, j.index key = Exec.ok (v, j') ∧
      ((∃ q, v.numValue = some q ∧ g = env.DB_CO (env.toFloat q)) ∨
        (v.is_number = false ∧ g = env.toFloat 1)) := by
  unfold readGain at h
  simp only [Exec.bind_eq] at h
  obtain ⟨⟨v, j1⟩, h1, h⟩ := Exec.bind_eq_ok h
  cases hn : v.is_number with
  | true =>
    obtain ⟨q, hq, hf⟩ := getFloat_number env.toFloat hn
    simp only [hn, if_true, hf, Exec.bind_ok, Exec.pure_eq, Exec.ok.injEq, Prod.mk.injEq] at h
    obtain ⟨rfl, rfl⟩ := h
    exact ⟨v, h1, Or.inl ⟨q, hq, rfl⟩⟩
  | false =>
    simp only [hn, Bool.false_eq_true, if_false, Exec.pure_eq, Exec.ok.injEq, Prod.mk.injEq] at h
    obtain ⟨rfl, rfl⟩ := h
    exact ⟨v, h1, Or.inr ⟨hn, rfl⟩⟩

theorem index_container {j : Json} {key : String} {v j' : Json}
    (h : j.index key = Exec.ok (v, j')) : ∃ kvs, j' = Json.object kvs := by
  cases j with
  | null =>
    simp only [Json.index, Exec.ok.injEq, Prod.mk.injEq] at h
    exact ⟨_, h.2.symm⟩
  | object kvs =>
    unfold Json.index at h
    cases hf : objFind key kvs with
    | some w =>
      simp only [hf, Exec.ok.injEq, Prod.mk.injEq] at h
      exact ⟨_, h.2.symm⟩
    | none =>
      simp only [hf, Exec.ok.injEq, Prod.mk.injEq] at h
      exact ⟨_, h.2.symm⟩
  | boolean b => simp [Json.index] at h
  | number_integer n => simp [Json.index] at h
  | number_unsigned n => simp [Json.index] at h
  | number_float x => simp [Json.index] at h
  | string s => simp [Json.index] at h
  | array xs => simp [Json.index] at h

theorem numValue_of_not_number {v : Json} (h : v.is_number = false) : v.numValue = none := by
  cases v <;> simp [Json.is_number] at h <;> rfl

theorem numValue_getD (o : Option Json) :
    (o.getD Json.null).numValue = o.bind Json.numValue := by
  cases o <;> rfl

theorem readSamplerate_ok {F V : Type} {env : Env F V} {j : Json} {s : F} {j' : Json}
    (h : readSamplerate env j = Exec.ok (s, j')) :
    s = specSamplerate env.toFloat j ∧ ∀ k, k ≠ "metadata" → k ≠ "samplerate" →
      j'.member k = j.member k := by
  unfold readSamplerate at h
  simp only [Exec.bind_eq] at h
  obtain ⟨⟨md, j1⟩, h1, h⟩ := Exec.bind_eq_ok h
  obtain ⟨⟨sr, md'⟩, h2, h⟩ := Exec.bind_eq_ok h
  obtain ⟨hmd, -, hj1⟩ := index_ok h1
  obtain ⟨hsr, -, -⟩ := index_ok h2
  obtain ⟨kvs1, rfl⟩ := index_container h1
  have hmeta : metadataSamplerate j = sr.numValue := by
    rw [hsr, numValue_getD, hmd]
    unfold metadataSamplerate
    cases j.member "metadata" <;> rfl
  have hassign : ∀ k, k ≠ "metadata" →
      ((Json.object kvs1).assign "metadata" md').member k = j.member k := by
    intro k hk
    rw [← hj1 k hk]
    simp [Json.assign, Json.member, objFind_objSet_ne "metadata" k _ kvs1 hk]
  cases hn : sr.is_number with
  | true =>
    obtain ⟨q, hq, hf⟩ := getFloat_number env.toFloat hn
    simp only [hn, if_true, hf, Exec.bind_ok, Exec.pure_eq, Exec.ok.injEq, Prod.mk.injEq] at h
    obtain ⟨rfl, rfl⟩ := h
    refine ⟨?_, fun k hk _ => hassign k hk⟩
    unfold specSamplerate
    rw [hmeta, hq]
  | false =>
    simp only [hn, Bool.false_eq_true, if_false] at h
    obtain ⟨⟨top, j2⟩, h3, h⟩ := Exec.bind_eq_ok h
    obtain ⟨htop, -, hj2⟩ := index_ok h3
    have htopv : topSamplerate j = top.numValue := by
      rw [htop, numValue_getD, hassign "samplerate" (by decide)]
      rfl
    have hmem : ∀ k, k ≠ "metadata" → k ≠ "samplerate" → j2.member k = j.member k := by
      intro k hk hk2
      rw [hj2 k hk2, hassign k hk]
    cases hn2 : top.is_number with
    | true =>
      obtain ⟨q, hq, hf⟩ := getFloat_number env.toFloat hn2
      simp only [hn2, if_true, hf, Exec.bind_ok, Exec.pure_eq, Exec.ok.injEq,
        Prod.mk.injEq] at h
      obtain ⟨rfl, rfl⟩ := h
      refine ⟨?_, hmem⟩
      unfold specSamplerate
      rw [hmeta, numValue_of_not_number hn, htopv, hq]
    | false =>
      simp only [hn2, Bool.false_eq_true, if_false, Exec.pure_eq, Exec.ok.injEq,
        Prod.mk.injEq] at h
      obtain ⟨rfl, rfl⟩ := h
      refine ⟨?_, hmem⟩
      unfold specSamplerate
      rw [hmeta, numValue_of_not_number hn, htopv, numValue_of_not_number hn2]

theorem parseDescriptor_ok {F V : Type} {env : Env F V} {j : Json} {d : Descriptor F}
    (h : parseDescriptor env j = Exec.ok d) :
    ∃ j1 j2 j3 j4, readInputSize env.MAX_INPUT_SIZE j = Exec.ok (d.input_size, j1) ∧
      readInSkip j1 = Exec.ok (d.input_skip, j2) ∧
      readGain env "in_gain" j2 = Exec.ok (d.input_gain, j3) ∧
      readGain env "out_gain" j3 = Exec.ok (d.output_gain, j4) ∧
      readSamplerate env j4 = Exec.ok (d.model_samplerate, d.model_json) := by
  unfold parseDescriptor at h
  simp only [Exec.bind_eq] at h
  obtain ⟨⟨n, j1⟩, h1, h⟩ := Exec.bind_eq_ok h
  obtain ⟨⟨k, j2⟩, h2, h⟩ := Exec.bind_eq_ok h
  obtain ⟨⟨gi, j3⟩, h3, h⟩ := Exec.bind_eq_ok h
  obtain ⟨⟨go, j4⟩, h4, h⟩ := Exec.bind_eq_ok h
  obtain ⟨⟨sr, j5⟩, h5, h⟩ := Exec.bind_eq_ok h
  simp only [Exec.pure_eq, Exec.ok.injEq] at h
  subst h
  exact ⟨j1, j2, j3, j4, h1, h2, h3, h4, h5⟩

theorem specSamplerate_congr {F : Type} (toFloat : Rat → F) {j j' : Json}
    (hmd : j'.member "metadata" = j.member "metadata")
    (htop : j'.member "samplerate" = j.member "samplerate") :
    specSamplerate toFloat j' = specSamplerate toFloat j := by
  unfold specSamplerate metadataSamplerate topSamplerate
  rw [hmd, htop]

/-- What a successful field validation read, in terms of the members of the
descriptor it started from. -/
theorem parseDescriptor_view {F V : Type} {env : Env F V} {j : Json} {d : Descriptor F}
    (h : parseDescriptor env j = Exec.ok d) :
    (∃ last, ((j.member "in_shape").getD Json.null).back = Exec.ok last ∧
        last.getInt = Exec.ok d.input_size ∧ d.input_size ≤ env.MAX_INPUT_SIZE) ∧
    ((((j.member "in_skip").getD Json.null).is_number = true ∧
        ((j.member "in_skip").getD Json.null).getInt = Exec.ok d.input_skip ∧
        d.input_skip ≤ 1) ∨
      (((j.member "in_skip").getD Json.null).is_number = false ∧ d.input_skip = 0)) ∧
    ((∃ q, (j.member "in_gain").bind Json.numValue = some q ∧
        d.input_gain = env.DB_CO (env.toFloat q)) ∨
      ((j.member "in_gain").bind Json.numValue = none ∧ d.input_gain = env.toFloat 1)) ∧
    ((∃ q, (j.member "out_gain").bind Json.numValue = some q ∧
        d.output_gain = env.DB_CO (env.toFloat q)) ∨
      ((j.member "out_gain").bind Json.numValue = none ∧ d.output_gain = env.toFloat 1)) ∧
    d.model_samplerate = specSamplerate env.toFloat j := by
  obtain ⟨j1, j2, j3, j4, h1, h2, h3, h4, h5⟩ := parseDescriptor_ok h
  obtain ⟨shape, last, hi1, hback, hint, hle⟩ := readInputSize_ok h1
  obtain ⟨hshape, -, hm1⟩ := index_ok hi1
  obtain ⟨v2, hi2, hskip⟩ := readInSkip_ok h2
  obtain ⟨hv2, -, hm2⟩ := index_ok hi2
  obtain ⟨v3, hi3, hgi⟩ := readGain_ok h3
  obtain ⟨hv3, -, hm3⟩ := index_ok hi3
  obtain ⟨v4, hi4, hgo⟩ := readGain_ok h4
  obtain ⟨hv4, -, hm4⟩ := index_ok hi4
  obtain ⟨hsr, -⟩ := readSamplerate_ok h5
  have e2 : v2 = (j.member "in_skip").getD Json.null := by
    rw [hv2, hm1 "in_skip" (by decide)]
  have e3 : v3 = (j.member "in_gain").getD Json.null := by
    rw [hv3, hm2 "in_gain" (by decide), hm1 "in_gain" (by decide)]
  have e4 : v4 = (j.member "out_gain").getD Json.null := by
    rw [hv4, hm3 "out_gain" (by decide), hm2 "out_gain" (by decide),
      hm1 "out_gain" (by decide)]
  have emd : j4.member "metadata" = j.member "metadata" := by
    rw [hm4 "metadata" (by decide), hm3 "metadata" (by decide), hm2 "metadata" (by decide),
      hm1 "metadata" (by decide)]
  have etop : j4.member "samplerate" = j.member "samplerate" := by
    rw [hm4 "samplerate" (by decide), hm3 "samplerate" (by decide),
      hm2 "samplerate" (by decide), hm1 "samplerate" (by decide)]
  refine ⟨⟨last, ?_, hint, hle⟩, ?_, ?_, ?_, ?_⟩
  · rw [← hshape]
    exact hback
  · rw [← e2]
    exact hskip
  · rw [← numValue_getD, ← e3]
    rcases hgi with ⟨q, hq, hg⟩ | ⟨hn, hg⟩
    · exact Or.inl ⟨q, hq, hg⟩
    · exact Or.inr ⟨numValue_of_not_number hn, hg⟩
  · rw [← numValue_getD, ← e4]
    rcases hgo with ⟨q, hq, hg⟩ | ⟨hn, hg⟩
    · exact Or.inl ⟨q, hq, hg⟩
    · exact Or.inr ⟨numValue_of_not_number hn, hg⟩
  · rw [hsr]
    exact specSamplerate_congr env.toFloat emd etop

theorem descriptorStage_of_catalog {F V : Type} {env : Env F V} {i : Fin 20} {j : Json}
    (h : catalogJson env i = Exec.ok j) : descriptorStage env i = parseDescriptor env j := by
  unfold descriptorStage
  simp only [Exec.bind_eq, h, Exec.bind_ok]

/-! ## Inversion of the loader body -/

theorem loadFromSlot_some {F V : Type} {env : Env F V} {logger : List LogEntry} {i : Fin 20}
    {cell : Int} {r : LoadResult F V} {m : DynamicModel F V}
    (h : loadFromSlot env logger i cell = Exec.ok r) (hm : r.ret = some m) :
    ∃ d v, descriptorStage env i = Exec.ok d ∧
      architectureStage env d.model_json env.newModel.variant = Exec.ok v ∧
      m = preBuffer env (saveExtraInfo env { env.newModel with variant := v } d) ∧
      r.log = logger ++ [LogEntry.note jsonNoteText] ∧ r.input_size = d.input_size := by
  unfold loadFromSlot at h
  cases hd : descriptorStage env i with
  | undefined => simp [hd] at h
  | throw w =>
    simp only [hd, Exec.ok.injEq] at h
    subst h
    simp at hm
  | ok d =>
    simp only [hd] at h
    cases ha : architectureStage env d.model_json env.newModel.variant with
    | undefined => simp [ha] at h
    | throw w =>
      simp only [ha, Exec.ok.injEq] at h
      subst h
      simp at hm
    | ok v =>
      simp only [ha, Exec.ok.injEq] at h
      subst h
      simp only [Option.some.injEq] at hm
      exact ⟨d, v, rfl, ha, hm.symm, rfl, rfl⟩

theorem loadFromSlot_none {F V : Type} {env : Env F V} {logger : List LogEntry} {i : Fin 20}
    {cell : Int} {r : LoadResult F V}
    (h : loadFromSlot env logger i cell = Exec.ok r) (hm : r.ret = none) :
    r.input_size = cell ∧
      ((∃ w, descriptorStage env i = Exec.throw w ∧
          r.log = logger ++ [LogEntry.error (jsonErrorText w)]) ∨
        (∃ d w, descriptorStage env i = Exec.ok d ∧
          architectureStage env d.model_json env.newModel.variant = Exec.throw w ∧
          r.log = logger ++ [LogEntry.note jsonNoteText, LogEntry.error (modelErrorText w)])) := by
  unfold loadFromSlot at h
  cases hd : descriptorStage env i with
  | undefined => simp [hd] at h
  | throw w =>
    simp only [hd, Exec.ok.injEq] at h
    subst h
    exact ⟨rfl, Or.inl ⟨w, rfl, rfl⟩⟩
  | ok d =>
    simp only [hd] at h
    cases ha : architectureStage env d.model_json env.newModel.variant with
    | undefined => simp [ha] at h
    | throw w =>
      simp only [ha, Exec.ok.injEq] at h
      subst h
      exact ⟨rfl, Or.inr ⟨d, w, rfl, ha, by simp⟩⟩
    | ok v =>
      simp only [ha, Exec.ok.injEq] at h
      subst h
      simp at hm

theorem loadFromSlot_descriptor_throw {F V : Type} {env : Env F V} (logger : List LogEntry)
    {i : Fin 20} (cell : Int) {w : String} (hd : descriptorStage env i = Exec.throw w) :
    loadFromSlot env logger i cell =
      Exec.ok ⟨none, logger ++ [LogEntry.error (jsonErrorText w)], cell⟩ := by
  unfold loadFromSlot
  simp only [hd]

theorem loadFromSlot_architecture_throw {F V : Type} {env : Env F V} (logger : List LogEntry)
    {i : Fin 20} (cell : Int) {d : Descriptor F} {w : String}
    (hd : descriptorStage env i = Exec.ok d)
    (ha : architectureStage env d.model_json env.newModel.variant = Exec.throw w) :
    loadFromSlot env logger i cell =
      Exec.ok ⟨none, logger ++ [LogEntry.note jsonNoteText, LogEntry.error (modelErrorText w)],
        cell⟩ := by
  unfold loadFromSlot
  simp only [hd, ha, List.append_assoc, List.singleton_append]

theorem loadFromSlot_success {F V : Type} {env : Env F V} (logger : List LogEntry)
    {i : Fin 20} (cell : Int) {d : Descriptor F} {v : V}
    (hd : descriptorStage env i = Exec.ok d)
    (ha : architectureStage env d.model_json env.newModel.variant = Exec.ok v) :
    loadFromSlot env logger i cell =
      Exec.ok ⟨some (preBuffer env (saveExtraInfo env { env.newModel with variant := v } d)),
        logger ++ [LogEntry.note jsonNoteText], d.input_size⟩ := by
  unfold loadFromSlot
  simp only [hd, ha]

theorem wrapInt_of_range {n : Int} (h : INT_MIN ≤ n ∧ n ≤ INT_MAX) : wrapInt n = n := by
  unfold INT_MIN INT_MAX at h
  unfold wrapInt
  omega

theorem exampleEnv_keeps_scalars (j : Json) : WarmupKeepsScalars (exampleEnv j) :=
  fun _ _ _ => ⟨rfl, rfl, rfl, rfl⟩

theorem exampleEnv_keeps_smoothers (j : Json) : WarmupKeepsSmoothers (exampleEnv j) :=
  fun _ _ _ => ⟨rfl, rfl⟩

theorem exampleEnv_selects (j : Json) : CreatorSelectsArchitecture (exampleEnv j) := by
  intro mj v v' h
  simp only [exampleEnv] at h
  split at h
  · simp only [Exec.ok.injEq, Prod.mk.injEq, true_and] at h
    subst h
    rfl
  · simp at h

theorem readInputSize_array_int (M : Int) {kvs : List (String × Json)} {elems : List Json}
    {last : Json} {n : Int}
    (hshape : objFind "in_shape" kvs = some (Json.array elems))
    (hlast : elems.getLast? = some last)
    (hn : last = Json.number_integer n ∨ (last = Json.number_unsigned n.toNat ∧ 0 ≤ n))
    (hrange : INT_MIN ≤ n ∧ n ≤ INT_MAX) :
    readInputSize M (Json.object kvs) =
      if n > M then Exec.throw "Value for input_size not supported"
      else Exec.ok (n, Json.object kvs) := by
  have hget : last.getInt = Exec.ok n := by
    rcases hn with rfl | ⟨rfl, h0⟩
    · simp [Json.getInt, wrapInt_of_range hrange]
    · simp [Json.getInt, Int.toNat_of_nonneg h0, wrapInt_of_range hrange]
  unfold readInputSize
  simp only [Exec.bind_eq, index_object_found hshape, Exec.bind_ok, Json.back, hlast, hget,
    Exec.pure_eq]

theorem parseDescriptor_of_readInputSize_throw {F V : Type} {env : Env F V} {j : Json}
    {w : String} (h : readInputSize env.MAX_INPUT_SIZE j = Exec.throw w) :
    parseDescriptor env j = Exec.throw w := by
  unfold parseDescriptor
  simp only [Exec.bind_eq, h, Exec.bind_throw]

theorem readInSkip_reject {j1 v : Json} {k : Int} (hobj : ∃ kvs, j1 = Json.object kvs)
    (hmem : j1.member "in_skip" = some v) (hnum : v.is_number = true)
    (hget : v.getInt = Exec.ok k) (hk : 1 < k) :
    readInSkip j1 = Exec.throw "Values for in_skip > 1 are not supported" := by
  obtain ⟨kvs, rfl⟩ := hobj
  have hk' : k > 1 := hk
  unfold readInSkip
  simp only [Exec.bind_eq, index_object_found hmem, Exec.bind_ok, hnum, if_true, hget, hk']

theorem readInSkip_absent {j1 : Json} (hobj : ∃ kvs, j1 = Json.object kvs)
    (hmem : j1.member "in_skip" = none) : ∃ j2, readInSkip j1 = Exec.ok (0, j2) := by
  obtain ⟨kvs, rfl⟩ := hobj
  unfold readInSkip
  simp only [Exec.bind_eq, index_object_missing hmem, Exec.bind_ok, Json.is_number,
    Bool.false_eq_true, if_false, Exec.pure_eq]
  exact ⟨_, rfl⟩

theorem index_null (key : String) :
    Json.null.index key = Exec.ok (Json.null, Json.object [(key, Json.null)]) := rfl

theorem readSamplerate_default {F V : Type} (env : Env F V) {j4 : Json}
    (hobj : ∃ kvs, j4 = Json.object kvs) (hlack : LacksSamplerate j4) :
    ∃ j5, readSamplerate env j4 = Exec.ok (env.toFloat 48000, j5) := by
  obtain ⟨kvs, rfl⟩ := hobj
  obtain ⟨htop, hmd⟩ := hlack
  have hne : ("samplerate" : String) ≠ "metadata" := by decide
  simp only [Json.member] at htop hmd
  have hset : ∀ x, objFind "samplerate" (objSet "metadata" x kvs) = none := by
    intro x
    rw [objFind_objSet_ne _ _ _ _ hne, htop]
  unfold readSamplerate
  rcases hmd with hmd | hmd | ⟨mkvs, hmd, hsr⟩
  · have hset2 : ∀ x, objFind "samplerate"
        (objSet "metadata" x (objSet "metadata" Json.null kvs)) = none := by
      intro x
      rw [objFind_objSet_ne _ _ _ _ hne, hset]
    simp only [Exec.bind_eq, index_object_missing hmd, Exec.bind_ok, index_null, Json.assign,
      Json.is_number, Bool.false_eq_true, if_false, index_object_missing (hset2 _),
      Exec.pure_eq]
    exact ⟨_, rfl⟩
  · simp only [Exec.bind_eq, index_object_found hmd, Exec.bind_ok, index_null, Json.assign,
      Json.is_number, Bool.false_eq_true, if_false, index_object_missing (hset _),
      Exec.pure_eq]
    exact ⟨_, rfl⟩
  · simp only [Exec.bind_eq, index_object_found hmd, Exec.bind_ok, index_object_missing hsr,
      Json.assign, Json.is_number, Bool.false_eq_true, if_false,
      index_object_missing (hset _), Exec.pure_eq]
    exact ⟨_, rfl⟩

/-- The four steps before the sample rate leave an object whose members other
than the four they touch are those of the descriptor. -/
theorem fields_prefix_members {F V : Type} {env : Env F V} {j j1 j2 j3 j4 : Json}
    {n k : Int} {g g' : F}
    (h1 : readInputSize env.MAX_INPUT_SIZE j = Exec.ok (n, j1))
    (h2 : readInSkip j1 = Exec.ok (k, j2))
    (h3 : readGain env "in_gain" j2 = Exec.ok (g, j3))
    (h4 : readGain env "out_gain" j3 = Exec.ok (g', j4)) :
    (∃ kvs, j4 = Json.object kvs) ∧
      ∀ key, key ≠ "in_shape" → key ≠ "in_skip" → key ≠ "in_gain" → key ≠ "out_gain" →
        j4.member key = j.member key := by
  obtain ⟨shape, last, hi1, -⟩ := readInputSize_ok h1
  obtain ⟨-, -, hm1⟩ := index_ok hi1
  obtain ⟨v2, hi2, -⟩ := readInSkip_ok h2
  obtain ⟨-, -, hm2⟩ := index_ok hi2
  obtain ⟨v3, hi3, -⟩ := readGain_ok h3
  obtain ⟨-, -, hm3⟩ := index_ok hi3
  obtain ⟨v4, hi4, -⟩ := readGain_ok h4
  obtain ⟨-, -, hm4⟩ := index_ok hi4
  refine ⟨index_container hi4, ?_⟩
  intro key ha hb hc hd
  rw [hm4 key hd, hm3 key hc, hm2 key hb, hm1 key ha]

theorem architectureStage_ok {F V : Type} {env : Env F V} {j : Json} {v v2 : V}
    (h : architectureStage env j v = Exec.ok v2) :
    ∃ v0, env.custom_model_creator j v = Exec.ok (true, v0) ∧
      visitParseReset env j v0 = Exec.ok v2 := by
  unfold architectureStage at h
  simp only [Exec.bind_eq] at h
  obtain ⟨⟨known, v0⟩, hc, h⟩ := Exec.bind_eq_ok h
  cases known with
  | true => exact ⟨v0, hc, by simpa using h⟩
  | false => simp at h

theorem visitParseReset_ok {F V : Type} {env : Env F V} {j : Json} {v0 v2 : V}
    (hnull : env.isNullModel v0 = false) (h : visitParseReset env j v0 = Exec.ok v2) :
    ∃ v1, env.parseJson v0 j true = Exec.ok v1 ∧ env.reset v1 = Exec.ok v2 := by
  unfold visitParseReset at h
  simp only [hnull, Bool.false_eq_true, if_false, Exec.bind_eq] at h
  exact Exec.bind_eq_ok h

/-! ## The claims -/

/-- Claim C1. For an `int` index outside 1..20 (zero, above 20, or negative)
the loader returns null with the logger and `*input_size_ptr` exactly as they
were, whatever the environment and its table hold; and when the guard lets an
index through, `modelIndex - 1` lies in 0..19 and designates a slot of the
table. -/
theorem loadModelFromIndex_out_of_range {F V : Type} (env : Env F V) (logger : List LogEntry)
    (modelIndex cell : Int) (hint : INT_MIN ≤ modelIndex ∧ modelIndex ≤ INT_MAX) :
    (¬ (1 ≤ modelIndex ∧ modelIndex ≤ 20) →
        loadModelFromIndex env logger modelIndex cell = Exec.ok ⟨none, logger, cell⟩) ∧
    (¬ (modelIndex = 0 ∨ toSizeT modelIndex > 20) →
        0 ≤ modelIndex - 1 ∧ modelIndex - 1 ≤ 19 ∧
        ∃ i : Fin 20, kModelsSlot (modelIndex - 1) = some i ∧ (i.val : Int) = modelIndex - 1 ∧
          loadModelFromIndex env logger modelIndex cell = loadFromSlot env logger i cell) := by
  constructor
  · intro hout
    have hg := (guard_iff modelIndex hint).mpr hout
    unfold loadModelFromIndex
    rw [if_pos hg]
  · intro hg
    have hin : 1 ≤ modelIndex ∧ modelIndex ≤ 20 := by
      by_contra hc
      exact hg ((guard_iff modelIndex hint).mpr hc)
    have hb : 0 ≤ modelIndex - 1 ∧ modelIndex - 1 < 20 := by omega
    refine ⟨by omega, by omega, ⟨(modelIndex - 1).toNat, by omega⟩, ?_, ?_, ?_⟩
    · unfold kModelsSlot
      rw [dif_pos hb]
    · simp only
      omega
    · unfold loadModelFromIndex kModelsSlot
      rw [if_neg hg, dif_pos hb]

theorem loadModelFromIndex_out_of_range_witness :
    loadModelFromIndex (exampleEnv plainJson) [LogEntry.note "before"] (-1) 7 =
        Exec.ok ⟨none, [LogEntry.note "before"], 7⟩ ∧
      loadModelFromIndex (exampleEnv plainJson) [LogEntry.note "before"] 21 7 =
        Exec.ok ⟨none, [LogEntry.note "before"], 7⟩ ∧
      ∃ i : Fin 20, kModelsSlot (20 - 1) = some i ∧ (i.val : Int) = 20 - 1 :=
  ⟨(loadModelFromIndex_out_of_range (exampleEnv plainJson) [LogEntry.note "before"] (-1) 7
      (by decide)).1 (by decide),
    (loadModelFromIndex_out_of_range (exampleEnv plainJson) [LogEntry.note "before"] 21 7
      (by decide)).1 (by decide),
    let ⟨i, h1, h2, _⟩ :=
      ((loadModelFromIndex_out_of_range (exampleEnv plainJson) [] 20 7 (by decide)).2
        (by decide)).2.2
    ⟨i, h1, h2⟩⟩

/-- Claim C2, counterexample. The descriptor whose `in_shape` ends in the
integer 4294967297, above `MAX_INPUT_SIZE = 3`, is not rejected: `get<int>()`
keeps the low 32 bits, the loader returns a model and reports input size 1. -/
theorem input_size_wraps :
    wideShapeJson.member "in_shape" = some (Json.array [Json.number_unsigned 4294967297]) ∧
      (exampleEnv wideShapeJson).MAX_INPUT_SIZE < 4294967297 ∧
      loadModelFromIndex (exampleEnv wideShapeJson) [] 1 7 =
        Exec.ok ⟨some plainModel, [LogEntry.note jsonNoteText], 1⟩ :=
  ⟨rfl, by decide, rfl⟩

/-- Claim C2, amended. For every in-range index whose descriptor has, as last
element of the array `in_shape`, an integer `n` that fits a 32 bit `int`: if
`n > MAX_INPUT_SIZE` the loader returns null, logs the error of the descriptor
stage and leaves `*input_size_ptr` alone; and whenever it returns a model the
value written to `*input_size_ptr` is `n` and `n ≤ MAX_INPUT_SIZE`. -/
theorem input_size_checked {F V : Type} (env : Env F V) (logger : List LogEntry) (i : Fin 20)
    (cell : Int) (kvs : List (String × Json)) (elems : List Json) (last : Json) (n : Int)
    (hjson : catalogJson env i = Exec.ok (Json.object kvs))
    (hshape : objFind "in_shape" kvs = some (Json.array elems))
    (hlast : elems.getLast? = some last)
    (hn : last = Json.number_integer n ∨ (last = Json.number_unsigned n.toNat ∧ 0 ≤ n))
    (hrange : INT_MIN ≤ n ∧ n ≤ INT_MAX) :
    (env.MAX_INPUT_SIZE < n →
        loadModelFromIndex env logger ((i.val : Int) + 1) cell =
          Exec.ok ⟨none,
            logger ++ [LogEntry.error (jsonErrorText "Value for input_size not supported")],
            cell⟩) ∧
    (∀ r m, loadModelFromIndex env logger ((i.val : Int) + 1) cell = Exec.ok r →
        r.ret = some m → r.input_size = n ∧ n ≤ env.MAX_INPUT_SIZE) := by
  have hread := readInputSize_array_int env.MAX_INPUT_SIZE hshape hlast hn hrange
  rw [loadModelFromIndex_slot]
  constructor
  · intro hgt
    have hgt' : n > env.MAX_INPUT_SIZE := hgt
    rw [if_pos hgt'] at hread
    apply loadFromSlot_descriptor_throw
    rw [descriptorStage_of_catalog hjson]
    exact parseDescriptor_of_readInputSize_throw hread
  · intro r m h hm
    obtain ⟨d, v, hd, -, -, -, hsz⟩ := loadFromSlot_some h hm
    rw [descriptorStage_of_catalog hjson] at hd
    obtain ⟨j1, -, -, -, h1, -⟩ := parseDescriptor_ok hd
    rw [hread] at h1
    by_cases hgt : n > env.MAX_INPUT_SIZE
    · simp [hgt] at h1
    · simp only [hgt, if_false, Exec.ok.injEq, Prod.mk.injEq] at h1
      rw [hsz, ← h1.1]
      exact ⟨rfl, by omega⟩

theorem input_size_checked_witness :
    loadModelFromIndex (exampleEnv bigShapeJson) [] 1 7 =
        Exec.ok ⟨none,
          [LogEntry.error (jsonErrorText "Value for input_size not supported")], 7⟩ ∧
      ((1 : Int) = 1 ∧ (1 : Int) ≤ (exampleEnv plainJson).MAX_INPUT_SIZE) :=
  ⟨(input_size_checked (exampleEnv bigShapeJson) [] 0 7 _ _ _ 5 rfl rfl rfl
      (Or.inr ⟨rfl, by decide⟩) (by decide)).1 (by decide),
    (input_size_checked (exampleEnv plainJson) [] 0 7 _ _ _ 1 rfl rfl rfl
      (Or.inr ⟨rfl, by decide⟩) (by decide)).2
      ⟨some plainModel, [LogEntry.note jsonNoteText], 1⟩ plainModel rfl rfl⟩

/-- Claim C7. For every in-range index the loader returns a model exactly when
the descriptor stage and the architecture stage both succeed; when either
stage throws, the result is null and `*input_size_ptr` keeps the value it had;
`*input_size_ptr` changes only on the path that returns a model, where it
receives the input size of the descriptor. -/
theorem model_iff_stages {F V : Type} (env : Env F V) (logger : List LogEntry) (i : Fin 20)
    (cell : Int) :
    ((∃ r m, loadModelFromIndex env logger ((i.val : Int) + 1) cell = Exec.ok r ∧
          r.ret = some m) ↔
        ∃ d v, descriptorStage env i = Exec.ok d ∧
          architectureStage env d.model_json env.newModel.variant = Exec.ok v) ∧
    (∀ w, descriptorStage env i = Exec.throw w →
        ∃ log, loadModelFromIndex env logger ((i.val : Int) + 1) cell =
          Exec.ok ⟨none, log, cell⟩) ∧
    (∀ d w, descriptorStage env i = Exec.ok d →
        architectureStage env d.model_json env.newModel.variant = Exec.throw w →
        ∃ log, loadModelFromIndex env logger ((i.val : Int) + 1) cell =
          Exec.ok ⟨none, log, cell⟩) ∧
    (∀ r, loadModelFromIndex env logger ((i.val : Int) + 1) cell = Exec.ok r →
        r.ret = none → r.input_size = cell) ∧
    (∀ r m, loadModelFromIndex env logger ((i.val : Int) + 1) cell = Exec.ok r →
        r.ret = some m → ∃ d, descriptorStage env i = Exec.ok d ∧ r.input_size = d.input_size) := by
  rw [loadModelFromIndex_slot]
  refine ⟨⟨?_, ?_⟩, ?_, ?_, ?_, ?_⟩
  · rintro ⟨r, m, h, hm⟩
    obtain ⟨d, v, hd, ha, -⟩ := loadFromSlot_some h hm
    exact ⟨d, v, hd, ha⟩
  · rintro ⟨d, v, hd, ha⟩
    exact ⟨_, _, loadFromSlot_success logger cell hd ha, rfl⟩
  · intro w hd
    exact ⟨_, loadFromSlot_descriptor_throw logger cell hd⟩
  · intro d w hd ha
    exact ⟨_, loadFromSlot_architecture_throw logger cell hd ha⟩
  · intro r h hm
    exact (loadFromSlot_none h hm).1
  · intro r m h hm
    obtain ⟨d, v, hd, -, -, -, hsz⟩ := loadFromSlot_some h hm
    exact ⟨d, hd, hsz⟩

theorem model_iff_stages_witness :
    (∃ r m, loadModelFromIndex (exampleEnv plainJson) [] 1 7 = Exec.ok r ∧ r.ret = some m) ∧
      (∃ log, loadModelFromIndex (exampleEnv noLayersJson) [] 1 7 =
        Exec.ok ⟨none, log, 7⟩) ∧
      (∃ log, loadModelFromIndex (exampleEnv bigShapeJson) [] 1 7 =
        Exec.ok ⟨none, log, 7⟩) :=
  ⟨(model_iff_stages (exampleEnv plainJson) [] 0 7).1.mpr ⟨plainDescriptor, 3, rfl, rfl⟩,
    (model_iff_stages (exampleEnv noLayersJson) [] 0 7).2.2.1 _
      "Unable to identify a known model architecture!" rfl rfl,
    (model_iff_stages (exampleEnv bigShapeJson) [] 0 7).2.1
      "Value for input_size not supported" rfl⟩

/-- Claim C8, counterexample. A descriptor that parses but matches no
architecture makes the loader return null after writing the success note of
the descriptor stage followed by the error of the architecture stage. -/
theorem note_precedes_architecture_error :
    (∃ d, descriptorStage (exampleEnv noLayersJson) 0 = Exec.ok d) ∧
      loadModelFromIndex (exampleEnv noLayersJson) [] 1 7 =
        Exec.ok ⟨none,
          [LogEntry.note jsonNoteText,
            LogEntry.error (modelErrorText "Unable to identify a known model architecture!")],
          7⟩ :=
  ⟨⟨_, rfl⟩, rfl⟩

/-- Claim C8, amended. For every in-range index the log of one call matches
its outcome as follows: a call that returns a model adds exactly the success
note and no error; a call that fails in the descriptor stage adds exactly one
error and no note; a call that fails in the architecture stage adds the note
of the descriptor stage followed by exactly one error. -/
theorem log_matches_outcome {F V : Type} (env : Env F V) (logger : List LogEntry) (i : Fin 20)
    (cell : Int) (r : LoadResult F V)
    (h : loadModelFromIndex env logger ((i.val : Int) + 1) cell = Exec.ok r) :
    (∀ m, r.ret = some m → r.log = logger ++ [LogEntry.note jsonNoteText]) ∧
    (r.ret = none →
      (∃ w, descriptorStage env i = Exec.throw w ∧
          r.log = logger ++ [LogEntry.error (jsonErrorText w)]) ∨
        (∃ d w, descriptorStage env i = Exec.ok d ∧
          architectureStage env d.model_json env.newModel.variant = Exec.throw w ∧
          r.log = logger ++
            [LogEntry.note jsonNoteText, LogEntry.error (modelErrorText w)])) := by
  rw [loadModelFromIndex_slot] at h
  constructor
  · intro m hm
    obtain ⟨d, v, -, -, -, hlog, -⟩ := loadFromSlot_some h hm
    exact hlog
  · intro hm
    exact (loadFromSlot_none h hm).2

theorem log_matches_outcome_witness :
    [LogEntry.note jsonNoteText] = [] ++ [LogEntry.note jsonNoteText] ∧
      ((∃ w, descriptorStage (exampleEnv bigShapeJson) 0 = Exec.throw w ∧
          [LogEntry.error (jsonErrorText "Value for input_size not supported")] =
            [] ++ [LogEntry.error (jsonErrorText w)]) ∨
        (∃ d w, descriptorStage (exampleEnv bigShapeJson) 0 = Exec.ok d ∧
          architectureStage (exampleEnv bigShapeJson) d.model_json
            (exampleEnv bigShapeJson).newModel.variant = Exec.throw w ∧
          [LogEntry.error (jsonErrorText "Value for input_size not supported")] =
            [] ++ [LogEntry.note jsonNoteText, LogEntry.error (modelErrorText w)])) :=
  ⟨(log_matches_outcome (exampleEnv plainJson) [] 0 7
      ⟨some plainModel, [LogEntry.note jsonNoteText], 1⟩ rfl).1 plainModel rfl,
    (log_matches_outcome (exampleEnv bigShapeJson) [] 0 7
      ⟨none, [LogEntry.error (jsonErrorText "Value for input_size not supported")], 7⟩
      rfl).2 rfl⟩

/-- Claim C3, counterexample. The descriptor with the JSON number
`in_skip = 1.5`, a value greater than 1, is not rejected: `get<int>()` truncates
it to 1 and the loader returns a model. -/
theorem fractional_skip_accepted :
    halfSkipJson.member "in_skip" = some (Json.number_float threeHalves) ∧
      (Json.number_float threeHalves).is_number = true ∧
      (1 : Rat) < threeHalves ∧
      loadModelFromIndex (exampleEnv halfSkipJson) [] 1 7 =
        Exec.ok ⟨some { plainModel with input_skip := true }, [LogEntry.note jsonNoteText], 1⟩ :=
  ⟨rfl, rfl, by unfold threeHalves; rw [Rat.lt_def]; decide, rfl⟩

/-- Claim C3, amended. For every descriptor whose `in_skip` is present and is
a JSON number that `get<int>()` converts to an `int` greater than 1 (every
integer from 2 to 2147483647 among them), and whose `in_shape` is read without
undefined behaviour, the descriptor stage fails: the loader logs its error and
returns null. For every descriptor in which `in_skip` is absent, the `in_skip`
step succeeds with skip value 0 whenever it is reached, and every descriptor
that passes the stage has skip value 0. -/
theorem in_skip_checked {F V : Type} (env : Env F V) (logger : List LogEntry) (i : Fin 20)
    (cell : Int) (j : Json) (hjson : catalogJson env i = Exec.ok j) :
    (∀ v k, j.member "in_skip" = some v → v.is_number = true → v.getInt = Exec.ok k → 1 < k →
        readInputSize env.MAX_INPUT_SIZE j ≠ Exec.undefined →
        ∃ w, loadModelFromIndex env logger ((i.val : Int) + 1) cell =
          Exec.ok ⟨none, logger ++ [LogEntry.error (jsonErrorText w)], cell⟩) ∧
    (j.member "in_skip" = none →
        (∀ n j1, readInputSize env.MAX_INPUT_SIZE j = Exec.ok (n, j1) →
          ∃ j2, readInSkip j1 = Exec.ok (0, j2)) ∧
        (∀ d, descriptorStage env i = Exec.ok d → d.input_skip = 0)) := by
  have hskipmem : ∀ n j1, readInputSize env.MAX_INPUT_SIZE j = Exec.ok (n, j1) →
      (∃ kvs, j1 = Json.object kvs) ∧ j1.member "in_skip" = j.member "in_skip" := by
    intro n j1 h1
    obtain ⟨shape, last, hi1, -⟩ := readInputSize_ok h1
    exact ⟨index_container hi1, (index_ok hi1).2.2 "in_skip" (by decide)⟩
  constructor
  · intro v k hmem hnum hget hk hdef
    rw [loadModelFromIndex_slot]
    have hthrow : ∃ w, descriptorStage env i = Exec.throw w := by
      rw [descriptorStage_of_catalog hjson]
      cases h1 : readInputSize env.MAX_INPUT_SIZE j with
      | undefined => exact absurd h1 hdef
      | throw w => exact ⟨w, parseDescriptor_of_readInputSize_throw h1⟩
      | ok p =>
        obtain ⟨n, j1⟩ := p
        obtain ⟨hobj, hm⟩ := hskipmem n j1 h1
        have h2 := readInSkip_reject hobj (hm.trans hmem) hnum hget hk
        refine ⟨"Values for in_skip > 1 are not supported", ?_⟩
        unfold parseDescriptor
        simp only [Exec.bind_eq, h1, Exec.bind_ok, h2, Exec.bind_throw]
    obtain ⟨w, hw⟩ := hthrow
    exact ⟨w, loadFromSlot_descriptor_throw logger cell hw⟩
  · intro habs
    constructor
    · intro n j1 h1
      obtain ⟨hobj, hm⟩ := hskipmem n j1 h1
      exact readInSkip_absent hobj (hm.trans habs)
    · intro d hd
      rw [descriptorStage_of_catalog hjson] at hd
      obtain ⟨-, hskip, -⟩ := parseDescriptor_view hd
      rw [habs] at hskip
      rcases hskip with ⟨hn, -⟩ | ⟨-, h0⟩
      · simp [Json.is_number] at hn
      · exact h0

theorem in_skip_checked_witness :
    (∃ w, loadModelFromIndex (exampleEnv twoSkipJson) [] 1 7 =
        Exec.ok ⟨none, [] ++ [LogEntry.error (jsonErrorText w)], 7⟩) ∧
      (∃ j2, readInSkip plainJson = Exec.ok (0, j2)) ∧
      plainDescriptor.input_skip = 0 :=
  ⟨(in_skip_checked (exampleEnv twoSkipJson) [] 0 7 twoSkipJson rfl).1
      (Json.number_unsigned 2) 2 rfl rfl rfl (by decide) (by
        intro h
        have h2 : readInputSize (exampleEnv twoSkipJson).MAX_INPUT_SIZE twoSkipJson =
            Exec.ok (1, twoSkipJson) := rfl
        rw [h2] at h
        cases h),
    ((in_skip_checked (exampleEnv plainJson) [] 0 7 plainJson rfl).2 rfl).1 1 plainJson rfl,
    ((in_skip_checked (exampleEnv plainJson) [] 0 7 plainJson rfl).2 rfl).2 plainDescriptor rfl⟩

/-- Claim C4, counterexample. The descriptor with `in_skip = -1` loads: the
skip value the parser accepted is -1, neither 0 nor 1, and the model's
`input_skip` flag is true although that value is not 1. -/
theorem negative_skip_accepted :
    negSkipJson.member "in_skip" = some (Json.number_integer (-1)) ∧
      readInSkip negSkipJson = Exec.ok (-1, negSkipJson) ∧
      loadModelFromIndex (exampleEnv negSkipJson) [] 1 7 =
        Exec.ok ⟨some { plainModel with input_skip := true }, [LogEntry.note jsonNoteText], 1⟩ :=
  ⟨rfl, rfl, rfl⟩

/-- Claim C4, amended. For every load that returns a model (the pre-buffering
pass leaving the scalar metadata alone), the integer skip value the parser
accepted, which is `in_skip` read as an `int` when it is a number and 0
otherwise, is at most 1, and the model's `input_skip` flag is true exactly when
that value is not 0. -/
theorem skip_flag {F V : Type} (env : Env F V) (hframe : WarmupKeepsScalars env)
    (logger : List LogEntry) (i : Fin 20) (cell : Int) (j : Json)
    (hjson : catalogJson env i = Exec.ok j) (r : LoadResult F V) (m : DynamicModel F V)
    (h : loadModelFromIndex env logger ((i.val : Int) + 1) cell = Exec.ok r)
    (hm : r.ret = some m) :
    ∃ d, descriptorStage env i = Exec.ok d ∧ d.input_skip ≤ 1 ∧
      ((((j.member "in_skip").getD Json.null).is_number = true ∧
          ((j.member "in_skip").getD Json.null).getInt = Exec.ok d.input_skip) ∨
        (((j.member "in_skip").getD Json.null).is_number = false ∧ d.input_skip = 0)) ∧
      (m.input_skip = true ↔ d.input_skip ≠ 0) := by
  rw [loadModelFromIndex_slot] at h
  obtain ⟨d, v, hd, -, hmodel, -, -⟩ := loadFromSlot_some h hm
  have hd' := hd
  rw [descriptorStage_of_catalog hjson] at hd'
  obtain ⟨-, hskip, -⟩ := parseDescriptor_view hd'
  have hflag : m.input_skip = decide (d.input_skip ≠ 0) := by
    rw [hmodel]
    exact (hframe _ _ _).1
  refine ⟨d, hd, ?_, ?_, ?_⟩
  · rcases hskip with ⟨-, -, hle⟩ | ⟨-, h0⟩
    · exact hle
    · omega
  · rcases hskip with ⟨hn, hg, -⟩ | ⟨hn, h0⟩
    · exact Or.inl ⟨hn, hg⟩
    · exact Or.inr ⟨hn, h0⟩
  · rw [hflag]
    simp

theorem skip_flag_witness :
    ∃ d, descriptorStage (exampleEnv negSkipJson) 0 = Exec.ok d ∧ d.input_skip ≤ 1 ∧
      ((((negSkipJson.member "in_skip").getD Json.null).is_number = true ∧
          ((negSkipJson.member "in_skip").getD Json.null).getInt = Exec.ok d.input_skip) ∨
        (((negSkipJson.member "in_skip").getD Json.null).is_number = false ∧
          d.input_skip = 0)) ∧
      (({ plainModel with input_skip := true } : DynamicModel SymFloat Nat).input_skip = true ↔
        d.input_skip ≠ 0) :=
  skip_flag (exampleEnv negSkipJson) (exampleEnv_keeps_scalars negSkipJson) [] 0 7 negSkipJson
    rfl ⟨some { plainModel with input_skip := true }, [LogEntry.note jsonNoteText], 1⟩
    { plainModel with input_skip := true } rfl rfl

/-- Claim C5. For every descriptor that loads successfully (the pre-buffering
pass leaving the scalar metadata alone) the sample rate of the returned model
is the one the specification's order gives: `metadata.samplerate` if numeric,
else the top-level `samplerate` if numeric, else 48000. A descriptor lacking
both fields resolves to 48000 and passes the field validation whenever the
steps before the sample rate pass. -/
theorem samplerate_resolved {F V : Type} (env : Env F V) (hframe : WarmupKeepsScalars env)
    (logger : List LogEntry) (i : Fin 20) (cell : Int) (j : Json)
    (hjson : catalogJson env i = Exec.ok j) :
    (∀ r m, loadModelFromIndex env logger ((i.val : Int) + 1) cell = Exec.ok r →
        r.ret = some m → m.samplerate = specSamplerate env.toFloat j) ∧
    (LacksSamplerate j →
        specSamplerate env.toFloat j = env.toFloat 48000 ∧
        ∀ n j1 k j2 g j3 g' j4,
          readInputSize env.MAX_INPUT_SIZE j = Exec.ok (n, j1) →
          readInSkip j1 = Exec.ok (k, j2) →
          readGain env "in_gain" j2 = Exec.ok (g, j3) →
          readGain env "out_gain" j3 = Exec.ok (g', j4) →
          ∃ d, descriptorStage env i = Exec.ok d ∧
            d.model_samplerate = env.toFloat 48000) := by
  constructor
  · intro r m h hm
    rw [loadModelFromIndex_slot] at h
    obtain ⟨d, v, hd, -, hmodel, -, -⟩ := loadFromSlot_some h hm
    rw [descriptorStage_of_catalog hjson] at hd
    obtain ⟨-, -, -, -, hsr⟩ := parseDescriptor_view hd
    rw [hmodel, ← hsr]
    exact (hframe _ _ _).2.2.2
  · intro hlack
    constructor
    · obtain ⟨htop, hmd⟩ := hlack
      unfold specSamplerate metadataSamplerate topSamplerate
      rw [htop]
      rcases hmd with hmd | hmd | ⟨mkvs, hmd, hsr⟩
      · rw [hmd]
        rfl
      · rw [hmd]
        rfl
      · rw [hmd]
        simp [Json.member, hsr]
    · intro n j1 k j2 g j3 g' j4 h1 h2 h3 h4
      obtain ⟨hobj, hmem⟩ := fields_prefix_members h1 h2 h3 h4
      have hlack4 : LacksSamplerate j4 := by
        unfold LacksSamplerate
        rw [hmem "samplerate" (by decide) (by decide) (by decide) (by decide),
          hmem "metadata" (by decide) (by decide) (by decide) (by decide)]
        exact hlack
      obtain ⟨j5, h5⟩ := readSamplerate_default env hobj hlack4
      refine ⟨⟨j5, n, k, g, g', env.toFloat 48000⟩, ?_, rfl⟩
      rw [descriptorStage_of_catalog hjson]
      unfold parseDescriptor
      simp only [Exec.bind_eq, h1, Exec.bind_ok, h2, h3, h4, h5, Exec.pure_eq]

theorem samplerate_resolved_witness :
    fullModel.samplerate = specSamplerate (exampleEnv fullJson).toFloat fullJson ∧
      (specSamplerate (exampleEnv plainJson).toFloat plainJson =
          (exampleEnv plainJson).toFloat 48000 ∧
        ∃ d, descriptorStage (exampleEnv plainJson) 0 = Exec.ok d ∧
          d.model_samplerate = (exampleEnv plainJson).toFloat 48000) :=
  ⟨(samplerate_resolved (exampleEnv fullJson) (exampleEnv_keeps_scalars fullJson) [] 0 7
      fullJson rfl).1 ⟨some fullModel, [LogEntry.note jsonNoteText], 1⟩ fullModel rfl rfl,
    let h := (samplerate_resolved (exampleEnv plainJson) (exampleEnv_keeps_scalars plainJson)
      [] 0 7 plainJson rfl).2 ⟨rfl, Or.inl rfl⟩
    ⟨h.1, h.2 1 plainJson 0 _ (SymFloat.lit 1) _ (SymFloat.lit 1) _ rfl rfl rfl rfl⟩⟩

/-- Claim C6. For every descriptor that loads successfully (the pre-buffering
pass leaving the scalar metadata alone): an absent `in_gain` gives input gain
1.0 and a numeric `in_gain` gives `DB_CO` of its value; an absent `out_gain`
gives output gain 1.0 and a numeric `out_gain` gives `DB_CO` of its value; each
field decides its own gain, whatever the other field holds. -/
theorem gains_resolved {F V : Type} (env : Env F V) (hframe : WarmupKeepsScalars env)
    (logger : List LogEntry) (i : Fin 20) (cell : Int) (j : Json)
    (hjson : catalogJson env i = Exec.ok j) (r : LoadResult F V) (m : DynamicModel F V)
    (h : loadModelFromIndex env logger ((i.val : Int) + 1) cell = Exec.ok r)
    (hm : r.ret = some m) :
    (j.member "in_gain" = none → m.input_gain = env.toFloat 1) ∧
    (∀ v q, j.member "in_gain" = some v → v.numValue = some q →
        m.input_gain = env.DB_CO (env.toFloat q)) ∧
    (j.member "out_gain" = none → m.output_gain = env.toFloat 1) ∧
    (∀ v q, j.member "out_gain" = some v → v.numValue = some q →
        m.output_gain = env.DB_CO (env.toFloat q)) := by
  rw [loadModelFromIndex_slot] at h
  obtain ⟨d, v, hd, -, hmodel, -, -⟩ := loadFromSlot_some h hm
  rw [descriptorStage_of_catalog hjson] at hd
  obtain ⟨-, -, hgi, hgo, -⟩ := parseDescriptor_view hd
  have hin : m.input_gain = d.input_gain := by
    rw [hmodel]
    exact (hframe _ _ _).2.1
  have hout : m.output_gain = d.output_gain := by
    rw [hmodel]
    exact (hframe _ _ _).2.2.1
  refine ⟨?_, ?_, ?_, ?_⟩
  · intro habs
    rw [habs] at hgi
    rcases hgi with ⟨q, hq, -⟩ | ⟨-, hg⟩
    · simp at hq
    · rw [hin, hg]
  · intro w q hw hq
    have e : (some w).bind Json.numValue = some q := hq
    rw [hw, e] at hgi
    rcases hgi with ⟨q', hq', hg⟩ | ⟨hnone, -⟩
    · simp only [Option.some.injEq] at hq'
      rw [hin, hg, hq']
    · simp at hnone
  · intro habs
    rw [habs] at hgo
    rcases hgo with ⟨q, hq, -⟩ | ⟨-, hg⟩
    · simp at hq
    · rw [hout, hg]
  · intro w q hw hq
    have e : (some w).bind Json.numValue = some q := hq
    rw [hw, e] at hgo
    rcases hgo with ⟨q', hq', hg⟩ | ⟨hnone, -⟩
    · simp only [Option.some.injEq] at hq'
      rw [hout, hg, hq']
    · simp at hnone

theorem gains_resolved_witness :
    (plainModel.input_gain = (exampleEnv plainJson).toFloat 1 ∧
        plainModel.output_gain = (exampleEnv plainJson).toFloat 1) ∧
      (fullModel.input_gain =
          (exampleEnv fullJson).DB_CO ((exampleEnv fullJson).toFloat ((6 : Int) : Rat)) ∧
        fullModel.output_gain =
          (exampleEnv fullJson).DB_CO ((exampleEnv fullJson).toFloat ((-3 : Int) : Rat))) :=
  let hp := gains_resolved (exampleEnv plainJson) (exampleEnv_keeps_scalars plainJson) [] 0 7
    plainJson rfl ⟨some plainModel, [LogEntry.note jsonNoteText], 1⟩ plainModel rfl rfl
  let hf := gains_resolved (exampleEnv fullJson) (exampleEnv_keeps_scalars fullJson) [] 0 7
    fullJson rfl ⟨some fullModel, [LogEntry.note jsonNoteText], 1⟩ fullModel rfl rfl
  ⟨⟨hp.1 rfl, hp.2.2.1 rfl⟩,
    ⟨hf.2.1 (Json.number_integer 6) _ rfl rfl,
      hf.2.2.2 (Json.number_integer (-3)) _ rfl rfl⟩⟩

/-- Claim C9. For every load that returns a model, the model handed to the
pre-buffering pass has both smoothers configured alike and separately: sample
rate equal to the model's resolved sample rate, time constant 0.1, target 0
and current value equal to the target, so current value = target = 0 for each;
and the returned model still has them when the pre-buffering pass leaves the
smoothers alone. -/
theorem smoothers_configured {F V : Type} (env : Env F V) (logger : List LogEntry)
    (i : Fin 20) (cell : Int) (r : LoadResult F V) (m : DynamicModel F V)
    (h : loadModelFromIndex env logger ((i.val : Int) + 1) cell = Exec.ok r)
    (hm : r.ret = some m) :
    ∃ d m0, descriptorStage env i = Exec.ok d ∧ m = preBuffer env m0 ∧
      m0.samplerate = d.model_samplerate ∧
      m0.param1Coeff = ⟨m0.samplerate, env.toFloat (1 / 10), env.toFloat 0, env.toFloat 0⟩ ∧
      m0.param2Coeff = ⟨m0.samplerate, env.toFloat (1 / 10), env.toFloat 0, env.toFloat 0⟩ ∧
      m0.param1Coeff.value = m0.param1Coeff.target ∧
      m0.param2Coeff.value = m0.param2Coeff.target ∧
      (WarmupKeepsSmoothers env →
        m.param1Coeff = ⟨d.model_samplerate, env.toFloat (1 / 10), env.toFloat 0,
          env.toFloat 0⟩ ∧
        m.param2Coeff = ⟨d.model_samplerate, env.toFloat (1 / 10), env.toFloat 0,
          env.toFloat 0⟩) := by
  rw [loadModelFromIndex_slot] at h
  obtain ⟨d, v, hd, -, hmodel, -, -⟩ := loadFromSlot_some h hm
  refine ⟨d, _, hd, hmodel, rfl, rfl, rfl, rfl, rfl, ?_⟩
  intro hkeep
  rw [hmodel]
  exact ⟨(hkeep _ _ _).1, (hkeep _ _ _).2⟩

theorem smoothers_configured_witness :
    plainModel.param1Coeff = exampleSmoother 48000 ∧
      plainModel.param2Coeff = exampleSmoother 48000 ∧
      ∃ m0 : DynamicModel SymFloat Nat, plainModel = preBuffer (exampleEnv plainJson) m0 ∧
        m0.param1Coeff.value = m0.param1Coeff.target ∧
        m0.param2Coeff.value = m0.param2Coeff.target := by
  obtain ⟨d, m0, hd, hm0, -, -, -, h1, h2, hkeep⟩ :=
    smoothers_configured (exampleEnv plainJson) [] 0 7
      ⟨some plainModel, [LogEntry.note jsonNoteText], 1⟩ plainModel rfl rfl
  have hdesc : descriptorStage (exampleEnv plainJson) 0 = Exec.ok plainDescriptor := rfl
  rw [hdesc] at hd
  obtain rfl : plainDescriptor = d := Exec.ok.inj hd
  obtain ⟨hp1, hp2⟩ := hkeep (exampleEnv_keeps_smoothers plainJson)
  exact ⟨hp1, hp2, m0, hm0, h1, h2⟩

/-- Claim C10. For every load that returns a model (a match by
`custom_model_creator` selecting an architecture), the returned model is the
result of these steps in this order: `parseJson` on the selected variant, then
`reset`, then the scalar metadata and both smoothers, then one `applyModel`
call over a buffer of 2048 zeros with count 2048, of which only the model is
kept; the value written to `*input_size_ptr` is the descriptor's input
size. -/
theorem load_pipeline {F V : Type} (env : Env F V) (hsel : CreatorSelectsArchitecture env)
    (logger : List LogEntry) (i : Fin 20) (cell : Int) (r : LoadResult F V)
    (m : DynamicModel F V)
    (h : loadModelFromIndex env logger ((i.val : Int) + 1) cell = Exec.ok r)
    (hm : r.ret = some m) :
    ∃ d v0 v1 v2 buf, descriptorStage env i = Exec.ok d ∧
      env.custom_model_creator d.model_json env.newModel.variant = Exec.ok (true, v0) ∧
      env.parseJson v0 d.model_json true = Exec.ok v1 ∧
      env.reset v1 = Exec.ok v2 ∧
      buf.length = 2048 ∧ (∀ x ∈ buf, x = env.toFloat 0) ∧
      m = (env.applyModel (saveExtraInfo env { env.newModel with variant := v2 } d) buf 2048).1 ∧
      r = ⟨some m, logger ++ [LogEntry.note jsonNoteText], d.input_size⟩ := by
  rw [loadModelFromIndex_slot] at h
  obtain ⟨d, v2, hd, ha, hmodel, hlog, hsz⟩ := loadFromSlot_some h hm
  obtain ⟨v0, hc, hv⟩ := architectureStage_ok ha
  obtain ⟨v1, hp, hr⟩ := visitParseReset_ok (hsel _ _ _ hc) hv
  refine ⟨d, v0, v1, v2, List.replicate 2048 (env.toFloat 0), hd, hc, hp, hr, ?_, ?_, hmodel, ?_⟩
  · exact List.length_replicate _ _
  · intro x hx
    exact List.eq_of_mem_replicate hx
  · cases r with
    | mk ret log sz =>
      simp only at hm hlog hsz
      rw [hm, hlog, hsz]

theorem load_pipeline_witness :
    ∃ d v0 v1 v2 buf, descriptorStage (exampleEnv plainJson) 0 = Exec.ok d ∧
      (exampleEnv plainJson).custom_model_creator d.model_json
        (exampleEnv plainJson).newModel.variant = Exec.ok (true, v0) ∧
      (exampleEnv plainJson).parseJson v0 d.model_json true = Exec.ok v1 ∧
      (exampleEnv plainJson).reset v1 = Exec.ok v2 ∧
      buf.length = 2048 ∧ (∀ x ∈ buf, x = (exampleEnv plainJson).toFloat 0) ∧
      plainModel = ((exampleEnv plainJson).applyModel
        (saveExtraInfo (exampleEnv plainJson)
          { (exampleEnv plainJson).newModel with variant := v2 } d) buf 2048).1 ∧
      (⟨some plainModel, [LogEntry.note jsonNoteText], 1⟩ : LoadResult SymFloat Nat) =
        ⟨some plainModel, [] ++ [LogEntry.note jsonNoteText], d.input_size⟩ :=
  load_pipeline (exampleEnv plainJson) (exampleEnv_selects plainJson) [] 0 7
    ⟨some plainModel, [LogEntry.note jsonNoteText], 1⟩ plainModel rfl rfl

end RtNeuralGeneric
